import Mathlib

/-!
Verification of the snapshot-diff engine in `src/librbd/DiffIterate.cc`.

The development shallowly embeds the pieces of `DiffIterate.cc` that the
specification talks about:

* the fast-diff per-object classification (`DiffIterate::diff_object_map`,
  overlap loop and resize loop);
* the entry checks of `DiffIterate::execute`;
* the per-object diff computation (`C_DiffObject::compute_diffs`,
  `C_DiffObject::compute_parent_overlap`, `C_DiffObject::finish`);
* the bounded-concurrency request/ticket ledger (`DiffContext`:
  `start_op`, `finish_op`, `invoke_callback`, `wait_for_ret`) as a state
  machine whose traces interleave submissions, out-of-order completions
  and drains.

Machine integers (`uint64_t`) are modelled as `Nat`: none of the verified
paths exercises wraparound, and the interval/offset arithmetic of the
source operates far from the 2^64 boundary (overflow there is a
precondition violation per the spec).  Error codes (`int`) are `Int`.
-/

/-- A diff record delivered to the user callback: the source's
`boost::tuple<uint64_t, size_t, bool>` of logical offset, length, and
end-existence. -/
structure Diff where
  off : Nat
  len : Nat
  ex : Bool
deriving DecidableEq, Repr

/-- One object extent as consumed by `compute_diffs`: the object-local
offset/length plus the buffer extents (pairs of buffer offset and length)
that map it back to the caller's range.  Mirrors the fields of
`ObjectExtent` that `DiffIterate.cc` reads. -/
structure ObjectExtent where
  offset : Nat
  length : Nat
  bufferExtents : List (Nat × Nat)
deriving DecidableEq, Repr

/-- An `interval_set<uint64_t>` value: an ascending list of disjoint
`(start, length)` ranges.  Ordered iteration is list order. -/
abbrev IntervalList := List (Nat × Nat)

/-- Intersection of the singleton interval set `{[a, a+len)}` with an
interval set `s`, in `s`'s iteration order.  This is the only shape of
`interval_set::intersection_of` the source uses: it always intersects a
freshly-inserted single range with an existing set. -/
def intervalIntersect (a len : Nat) (s : IntervalList) : IntervalList :=
  s.filterMap (fun p =>
    let lo := max a p.1
    let hi := min (a + len) (p.1 + p.2)
    if lo < hi then some (lo, hi - lo) else none)

/-! ### Object-map state constants (2-bit bitmap values) and diff states -/
def OBJECT_NONEXISTENT : Nat := 0

def OBJECT_EXISTS : Nat := 1

def OBJECT_PENDING : Nat := 2

def OBJECT_EXISTS_CLEAN : Nat := 3

def OBJECT_DIFF_STATE_NONE : Nat := 0

def OBJECT_DIFF_STATE_UPDATED : Nat := 1

def OBJECT_DIFF_STATE_HOLE : Nat := 2

/-- One iteration of the overlap loop of `DiffIterate::diff_object_map`
for a single object index: given the previous map's state, the current
map's state and the accumulated diff-state cell, produce the new cell.
Mirrors the `if`/`else if` chain at lines 476-485 of the source. -/
def updateDiffState (prev cur old : Nat) : Nat :=
  if cur = OBJECT_NONEXISTENT then
    (if prev ≠ OBJECT_NONEXISTENT then OBJECT_DIFF_STATE_HOLE else old)
  else if cur = OBJECT_EXISTS ∨
          (prev ≠ cur ∧ ¬(prev = OBJECT_EXISTS ∧ cur = OBJECT_EXISTS_CLEAN)) then
    OBJECT_DIFF_STATE_UPDATED
  else old

/-- The claim's wording of the overlap-loop write rule, read as ordered
cases: write `Hole` when the current state is nonexistent and the
previous was not; otherwise write `Updated` when the current state is
`Exists`, or when previous ≠ current and it is not the
`Exists → ExistsClean` transition; otherwise leave the cell unchanged. -/
def updateDiffStateSpec (prev cur old : Nat) : Nat :=
  if cur = OBJECT_NONEXISTENT ∧ prev ≠ OBJECT_NONEXISTENT then
    OBJECT_DIFF_STATE_HOLE
  else if cur = OBJECT_EXISTS ∨
          (prev ≠ cur ∧ ¬(prev = OBJECT_EXISTS ∧ cur = OBJECT_EXISTS_CLEAN)) then
    OBJECT_DIFF_STATE_UPDATED
  else old

/-- Accumulated effect on one object index of successive
(previous, current) bitmap pairs along the chain walk. -/
def overlapWalk (pairs : List (Nat × Nat)) (old : Nat) : Nat :=
  pairs.foldl (fun o pc => updateDiffState pc.1 pc.2 o) old

/-- Classification of an object index that appears only in the grown part
of the current map (resize loop, lines 495-499 of the source). -/
def growDiffState (cur : Nat) : Nat :=
  if cur = OBJECT_NONEXISTENT then OBJECT_DIFF_STATE_NONE
  else OBJECT_DIFF_STATE_UPDATED

/-- One step of the `diff_object_map` chain walk over whole maps: the
overlap loop over indices present in both maps, then the resize of the
accumulated state to the current map's size (new cells zero-filled, as
`BitVector<2>::resize` does), then the grow loop guarded by
`object_map.size() > prev_object_map.size() && (diff_from_start ||
prev_object_map_valid)`. -/
def diffObjectMapStep (diffFromStart validPrev : Bool) (prevMap curMap state : List Nat) :
    List Nat :=
  (List.range curMap.length).map (fun i =>
    if i < min curMap.length prevMap.length then
      updateDiffState (prevMap.getD i 0) (curMap.getD i 0) (state.getD i 0)
    else if prevMap.length < curMap.length ∧ (diffFromStart ∨ validPrev) then
      growDiffState (curMap.getD i 0)
    else state.getD i 0)

/-- The chain walk of `diff_object_map` over the ordered list of
per-snapshot object maps (from the resolved starting snapshot through the
end snapshot), threading the previous map and its validity flag exactly
as the source's `while` loop does. -/
def diffObjectMapWalkGo (diffFromStart : Bool) :
    Bool → List Nat → List (List Nat) → List Nat → List Nat
  | _, _, [], state => state
  | validPrev, prevMap, curMap :: rest, state =>
      diffObjectMapWalkGo diffFromStart true curMap rest
        (diffObjectMapStep diffFromStart validPrev prevMap curMap state)

/-- The accumulated `object_diff_state` after walking the whole chain,
starting from an empty previous map and `prev_object_map_valid = false`. -/
def diffObjectMapWalk (diffFromStart : Bool) (maps : List (List Nat)) : List Nat :=
  diffObjectMapWalkGo diffFromStart false [] maps []

/-- The existence flag of the record the fast path of
`DiffIterate::execute` (lines 362-374) hands to the callback for a given
object number: a record is emitted iff the accumulated state is not
`NONE`, and its `exists` argument is `state == OBJECT_DIFF_STATE_UPDATED`. -/
def fastPathRecordEx (states : List Nat) (objectNo : Nat) : Option Bool :=
  if states.getD objectNo 0 ≠ OBJECT_DIFF_STATE_NONE then
    some (states.getD objectNo 0 = OBJECT_DIFF_STATE_UPDATED)
  else none

/-- The `assert(exists)` precondition of `DiffIterate::simple_diff_cb`:
every record reaching the parent-diff accumulation callback must carry
`exists = true`. -/
def simpleDiffCbAssert (e : Bool) : Prop := e = true

/-! ### Entry checks of `DiffIterate::execute` -/
def ENOENT : Int := 2

def EINVAL : Int := 22

/-- The `CEPH_NOSNAP` sentinel, `(uint64_t)(-2)`: the value
`ImageCtx::get_snap_id` returns for a snapshot name that does not
resolve. -/
def CEPH_NOSNAP : Nat := 18446744073709551614

/-- The early-return checks at lines 286-295 of `DiffIterate::execute`,
in source order: unresolved name, equal ids, inverted range.  `none`
means execution proceeds to submit work. -/
def executeEntryCheck (fromSnapId endSnapId : Nat) : Option Int :=
  if fromSnapId = CEPH_NOSNAP then some (-ENOENT)
  else if fromSnapId = endSnapId then some 0
  else if fromSnapId ≥ endSnapId then some (-EINVAL)
  else none

/-- Model of `execute` as seen from its entry checks: when a check fires the
operation returns that status having delivered no records and submitted
no work; otherwise it behaves as the rest of the function (`rest`, a
status paired with the records delivered to the callback). -/
def executeModel (fromSnapId endSnapId : Nat) (rest : Int × List Diff) : Int × List Diff :=
  match executeEntryCheck fromSnapId endSnapId with
  | some r => (r, [])
  | none => rest

/-! ### Claim C6: `C_DiffObject::compute_diffs` -/
/-- The inner loops of `compute_diffs` for one object extent (lines
208-236 of the source): walk the buffer extents keeping the running
object position `opos` (started at `q->offset`), intersect
`{[opos, opos+len)}` with the diff set, and translate each overlap piece
to `m_offset + buffer_offset + (piece_start - opos)`. -/
def extentDiffs (mOffset : Nat) (diff : IntervalList) (endExists : Bool)
    (q : ObjectExtent) : List Diff :=
  (q.bufferExtents.foldl
    (fun acc r =>
      (acc.1 ++ (intervalIntersect acc.2 r.2 diff).map
          (fun s => Diff.mk (mOffset + r.1 + (s.1 - acc.2)) s.2 endExists),
       acc.2 + r.2))
    (([] : List Diff), q.offset)).1

/-- Model of `C_DiffObject::compute_diffs` (lines 186-237): nothing when the diff
set is empty; with `whole_object`, one record per object extent at
`m_offset + q->offset` of length `q->length`; otherwise the per-extent
intersection loop. -/
def compute_diffs (wholeObject : Bool) (mOffset : Nat) (exts : List ObjectExtent)
    (diff : IntervalList) (endExists : Bool) : List Diff :=
  if diff.isEmpty then []
  else if wholeObject then
    exts.map (fun q => Diff.mk (mOffset + q.offset) q.length endExists)
  else
    (exts.map (extentDiffs mOffset diff endExists)).flatten

/-- The object-local start positions of an object extent's buffer
extents: each buffer extent `(buffer_offset, length)` is paired with its
extent start, namely the object extent's offset plus the lengths of the
buffer extents preceding it. -/
def bufferExtentPositions (start : Nat) : List (Nat × Nat) → List (Nat × Nat × Nat)
  | [] => []
  | r :: rest => (start, r.1, r.2) :: bufferExtentPositions (start + r.2) rest

/-- The claim's wording of the per-extent computation: for each buffer
extent, intersect the diff with that extent's object-local range
`[extent_start, extent_start + length)` and emit each sub-range at
`image_offset + buffer_offset + (sub_range_start - extent_start)`. -/
def extentDiffsSpec (mOffset : Nat) (diff : IntervalList) (endExists : Bool)
    (q : ObjectExtent) : List Diff :=
  ((bufferExtentPositions q.offset q.bufferExtents).map
    (fun t => (intervalIntersect t.1 t.2.2 diff).map
       (fun s => Diff.mk (mOffset + t.2.1 + (s.1 - t.1)) s.2 endExists))).flatten

/-- The claim's statement of `compute_diffs` as a whole: empty diff emits
nothing; `whole_object` collapses to one full-extent record per object
extent with `exists = end_exists`; otherwise the per-buffer-extent
intersection and translation. -/
def compute_diffs_spec (wholeObject : Bool) (mOffset : Nat) (exts : List ObjectExtent)
    (diff : IntervalList) (endExists : Bool) : List Diff :=
  if diff.isEmpty then []
  else if wholeObject then
    exts.map (fun q => Diff.mk (mOffset + q.offset) q.length endExists)
  else
    (exts.map (extentDiffsSpec mOffset diff endExists)).flatten

/-! ### Claim C7: object-not-found handling and the parent overlap -/
/-- Model of `C_DiffObject::compute_parent_overlap` (lines 239-261): when the diff
starts at snapshot 0 and the parent-overlap set is non-empty, intersect
each buffer extent's logical range `[m_offset + buffer_offset, +length)`
with the parent-overlap set and emit each piece with `exists = true`;
otherwise emit nothing. -/
def compute_parent_overlap (fromSnapId : Nat) (parentDiff : IntervalList)
    (mOffset : Nat) (exts : List ObjectExtent) : List Diff :=
  if fromSnapId = 0 ∧ ¬ parentDiff.isEmpty then
    ((exts.map (fun q =>
        ((q.bufferExtents.map (fun r =>
           (intervalIntersect (mOffset + r.1) r.2 parentDiff).map
             (fun s => Diff.mk s.1 s.2 true))).flatten))).flatten)
  else []

/-- Model of `C_DiffObject::finish` (lines 151-172): fold the per-op `list_snaps`
status into `r`; on success compute the diffs, on `-ENOENT` clear the
error and report the parent overlap instead, otherwise keep the error.
Returns the status passed to `finish_op` together with the records. -/
def diffObjectFinish (r snapRet : Int) (wholeObject : Bool) (fromSnapId : Nat)
    (parentDiff : IntervalList) (mOffset : Nat) (exts : List ObjectExtent)
    (diff : IntervalList) (endExists : Bool) : Int × List Diff :=
  let r1 := if r = 0 ∧ snapRet < 0 then snapRet else r
  if r1 = 0 then (0, compute_diffs wholeObject mOffset exts diff endExists)
  else if r1 = -ENOENT then (0, compute_parent_overlap fromSnapId parentDiff mOffset exts)
  else (r1, [])

/-! ### The `DiffContext` ticket ledger as a state machine

`DiffContext` serializes all mutation under `m_lock`; a run of the slow
path is an interleaving of the lock-protected critical sections.  We
model it as a trace of atomic events over the ledger state:

* `Ev.start` — `start_op` admitting a submission (enabled only while the
  in-flight count is below the configured concurrency limit, since the
  submitting thread blocks otherwise) and assigning `m_next_request++`;
* `Ev.finish k` — `finish_op` for request `k`, called from an arbitrary
  completion thread (enabled for any started, not-yet-finished request,
  which is how completions can arrive in any order);
* `Ev.drain` — one full `invoke_callback` drain.

The environment of one invocation is a `Cfg`: the concurrency limit
(`concurrent_management_ops`), the status and records each request
completes with (fixed per request number, as they are computed from the
object, not from timing), and the user callback's verdict on each
record.  `finished` and `delivered` are ghost fields recording which
requests have completed and the exact sequence of records passed to the
user callback. -/
structure Cfg where
  limit : Nat
  reqStatus : Nat → Int
  reqDiffs : Nat → List Diff
  cb : Diff → Int

/-- The ledger state of `DiffContext`: `m_pending_ops`,
`m_return_value`, `m_next_request`, `m_waiting_request` and
`m_request_diffs` (a `std::map`, modelled as a key-sorted association
list), plus the two ghost fields. -/
structure DC where
  pendingOps : Nat
  returnValue : Int
  nextRequest : Nat
  waitingRequest : Nat
  requestDiffs : List (Nat × List Diff)
  finished : List Nat
  delivered : List Diff
deriving DecidableEq, Repr

/-- The state of a freshly constructed `DiffContext`. -/
def initDC : DC :=
  { pendingOps := 0, returnValue := 0, nextRequest := 0, waitingRequest := 0,
    requestDiffs := [], finished := [], delivered := [] }

/-- Assignment `m_request_diffs[request_num] = diffs`: ordered insertion into the
key-sorted association list, replacing an existing binding, as
`std::map::operator[]` does. -/
def mapInsert (k : Nat) (v : List Diff) : List (Nat × List Diff) → List (Nat × List Diff)
  | [] => [(k, v)]
  | p :: rest =>
    if k < p.1 then (k, v) :: p :: rest
    else if k = p.1 then (k, v) :: rest
    else p :: mapInsert k v rest

/-- Lookup, as `std::map::find`. -/
def mapFind (k : Nat) : List (Nat × List Diff) → Option (List Diff)
  | [] => none
  | p :: rest => if p.1 = k then some p.2 else mapFind k rest

/-- The inner `for` loop of `invoke_callback` over one request's record
list: each record is handed to the user callback in order; on the first
negative callback status the loop stops (the failing record HAS been
passed), returning the records actually delivered and the error if any. -/
def deliverList (cb : Diff → Int) : List Diff → List Diff × Option Int
  | [] => ([], none)
  | d :: ds =>
    if cb d < 0 then ([d], some (cb d))
    else
      let res := deliverList cb ds
      (d :: res.1, res.2)

/-- The `while` loop of `invoke_callback` (lines 60-77): while the map's
first entry carries the waiting request number, erase it, deliver its
records, and advance the counter — stopping early (without advancing)
when the callback fails.  Returns the remaining map, the new waiting
number, the records delivered and the callback error, if any. -/
def drainGo (cb : Diff → Int) : List (Nat × List Diff) → Nat →
    List (Nat × List Diff) × Nat × List Diff × Option Int
  | [], w => ([], w, [], none)
  | (k, ds) :: rest, w =>
    if k = w then
      match deliverList cb ds with
      | (del, some e) => (rest, w, del, some e)
      | (del, none) =>
        match drainGo cb rest (w + 1) with
        | (m2, w2, del2, e2) => (m2, w2, del ++ del2, e2)
    else ((k, ds) :: rest, w, [], none)

/-- Model of `DiffContext::invoke_callback` (lines 53-79): return the sticky
error immediately if one is set (delivering nothing); otherwise run the
drain loop, recording a callback failure as the sticky error.  Returns
the function's return value paired with the updated ledger. -/
def invokeCallback (cb : Diff → Int) (s : DC) : Int × DC :=
  if s.returnValue < 0 then (s.returnValue, s)
  else
    match drainGo cb s.requestDiffs s.waitingRequest with
    | (m2, w2, del, some r) =>
        (r, { s with requestDiffs := m2, waitingRequest := w2, returnValue := r,
                     delivered := s.delivered ++ del })
    | (m2, w2, del, none) =>
        (0, { s with requestDiffs := m2, waitingRequest := w2,
                     delivered := s.delivered ++ del })

/-- Model of `DiffContext::start_op` (lines 89-96) once admitted: increment the
in-flight count and assign `m_next_request++` (the assigned request
number is the pre-increment `nextRequest`). -/
def startOp (s : DC) : DC :=
  { s with pendingOps := s.pendingOps + 1, nextRequest := s.nextRequest + 1 }

/-- Model of `DiffContext::finish_op` (lines 98-108) for request `k`: store the
request's records under its number, record the sticky error if the
status is negative and none is recorded yet, and decrement the in-flight
count. -/
def finishOp (cfg : Cfg) (k : Nat) (s : DC) : DC :=
  { s with
    requestDiffs := mapInsert k (cfg.reqDiffs k) s.requestDiffs,
    returnValue :=
      if s.returnValue = 0 ∧ cfg.reqStatus k < 0 then cfg.reqStatus k else s.returnValue,
    pendingOps := s.pendingOps - 1,
    finished := k :: s.finished }

inductive Ev where
  | start
  | finish (k : Nat)
  | drain
deriving DecidableEq, Repr

/-- One atomic event of a run. -/
def stepEv (cfg : Cfg) (s : DC) : Ev → DC
  | Ev.start => startOp s
  | Ev.finish k => finishOp cfg k s
  | Ev.drain => (invokeCallback cfg.cb s).2

/-- Enabledness: `start_op` returns only while the in-flight count is
strictly below the limit (the `while (m_pending_ops >=
m_image_ctx.concurrent_management_ops) wait` loop); a completion can fire
for any started but not yet finished request, in any order; a drain may
run at any time. -/
def okEv (cfg : Cfg) (s : DC) : Ev → Bool
  | Ev.start => decide (s.pendingOps < cfg.limit)
  | Ev.finish k => decide (k < s.nextRequest ∧ ¬ k ∈ s.finished)
  | Ev.drain => true

/-- A trace is valid from `s` when every event is enabled where it fires. -/
def validB (cfg : Cfg) : DC → List Ev → Bool
  | _, [] => true
  | s, e :: t => okEv cfg s e && validB cfg (stepEv cfg s e) t

/-- Run a trace. -/
def runEvents (cfg : Cfg) : DC → List Ev → DC
  | s, [] => s
  | s, e :: t => runEvents cfg (stepEv cfg s e) t

/-- The statuses observed by the ledger along one event, in order: a
completion contributes its status, a drain contributes the user
callback's statuses for the records it delivers. -/
def obsEv (cfg : Cfg) (s : DC) : Ev → List Int
  | Ev.start => []
  | Ev.finish k => [cfg.reqStatus k]
  | Ev.drain =>
    if s.returnValue < 0 then []
    else ((drainGo cfg.cb s.requestDiffs s.waitingRequest).2.2.1).map cfg.cb

/-- All statuses observed along a trace, in order. -/
def obsRun (cfg : Cfg) : DC → List Ev → List Int
  | _, [] => []
  | s, e :: t => obsEv cfg s e ++ obsRun cfg (stepEv cfg s e) t

/-- The first negative entry of a status list, or 0 when none. -/
def firstNeg : List Int → Int
  | [] => 0
  | x :: xs => if x < 0 then x else firstNeg xs

/-- No entry of the list is negative. -/
def noNeg (l : List Int) : Prop := ∀ x, x ∈ l → ¬ x < 0

/-- Concatenation of the record lists of requests `0, 1, …, n-1` in
request-number order: the sequence the callback sees when delivery
follows the ticket ledger. -/
def flattenUpTo (f : Nat → List Diff) (n : Nat) : List Diff :=
  ((List.range n).map f).flatten

/-- Boolean non-decreasing test on a list of offsets. -/
def nondecr : List Nat → Bool
  | [] => true
  | [_] => true
  | a :: b :: t => decide (a ≤ b) && nondecr (b :: t)

/-- Every key of the association list is strictly above `n`. -/
def KeyLB (n : Nat) (m : List (Nat × List Diff)) : Prop :=
  ∀ p, p ∈ m → n < p.1

/-- The association list is strictly sorted by key (the `std::map`
iteration-order invariant). -/
def KeysSorted : List (Nat × List Diff) → Prop
  | [] => True
  | p :: rest => KeyLB p.1 rest ∧ KeysSorted rest

/-- The ledger invariant, true of every reachable state of a run:
the sticky error is never positive; `waiting ≤ next`; the in-flight
count never exceeds the limit; the buffer is a key-sorted map whose
entries are completed, not-yet-delivered requests carrying exactly their
request's records; everything below `waiting` has completed; and the
delivered sequence is the request-number-ordered concatenation of record
lists up to `waiting` (exactly so while no error is set, and extended by
at most part of request `waiting`'s list after a callback failure). -/
structure LedgerInv (cfg : Cfg) (s : DC) : Prop where
  rv_nonpos : s.returnValue ≤ 0
  waiting_le : s.waitingRequest ≤ s.nextRequest
  pending_le : s.pendingOps ≤ cfg.limit
  sorted : KeysSorted s.requestDiffs
  entries : ∀ p, p ∈ s.requestDiffs →
    s.waitingRequest ≤ p.1 ∧ p.1 < s.nextRequest ∧ p.2 = cfg.reqDiffs p.1 ∧
      p.1 ∈ s.finished
  past_finished : ∀ j, j < s.waitingRequest → j ∈ s.finished
  delivered_eq : s.returnValue = 0 →
    s.delivered = flattenUpTo cfg.reqDiffs s.waitingRequest
  delivered_lower : ∃ c, flattenUpTo cfg.reqDiffs s.waitingRequest ++ c = s.delivered
  delivered_upper : ∃ c, s.delivered ++ c = flattenUpTo cfg.reqDiffs (s.waitingRequest + 1)

def cfgW : Cfg where
  limit := 2
  reqStatus := fun _ => 0
  reqDiffs := fun k =>
    if k = 0 then [Diff.mk 0 1 true] else if k = 1 then [Diff.mk 5 2 false] else []
  cb := fun _ => 0

def cfgE : Cfg where
  limit := 2
  reqStatus := fun k => if k = 1 then -7 else 0
  reqDiffs := fun k => if k = 0 then [Diff.mk 0 1 true] else []
  cb := fun _ => 0

def cfgC : Cfg where
  limit := 1
  reqStatus := fun _ => 0
  reqDiffs := fun _ => []
  cb := fun d => if d.off = 5 then -7 else 0

def sW : DC where
  pendingOps := 0
  returnValue := 0
  nextRequest := 1
  waitingRequest := 0
  requestDiffs := [(0, [Diff.mk 1 1 true, Diff.mk 5 1 true, Diff.mk 9 1 true])]
  finished := [0]
  delivered := []

/-! ### Claim C3: fast-diff overlap-loop classification -/
theorem updateDiffState_ne_none (prev cur old : Nat) (h : old ≠ OBJECT_DIFF_STATE_NONE) :
    updateDiffState prev cur old ≠ OBJECT_DIFF_STATE_NONE := by
  unfold updateDiffState OBJECT_DIFF_STATE_NONE OBJECT_DIFF_STATE_HOLE
    OBJECT_DIFF_STATE_UPDATED at *
  split_ifs <;> omega

/-- Claim C3: during the fast-diff chain walk, an object index present in
both the previous and the current bitmap is rewritten exactly per the
spec's ordered rule — `Hole` when the current state is `Nonexistent` and
the previous was not, `Updated` when the current state is `Exists` or the
pair changed other than `Exists → ExistsClean`, and otherwise the
accumulated cell is left untouched; consequently a cell already classified
`Updated` or `Hole` is never reset to `None` by any later sequence of
overlap-loop steps. -/
theorem fast_diff_classification_rule (prev cur old : Nat) (pairs : List (Nat × Nat)) :
    updateDiffState prev cur old = updateDiffStateSpec prev cur old ∧
    (old ≠ OBJECT_DIFF_STATE_NONE → overlapWalk pairs old ≠ OBJECT_DIFF_STATE_NONE) := by
  constructor
  · unfold updateDiffState updateDiffStateSpec OBJECT_NONEXISTENT OBJECT_EXISTS
      OBJECT_EXISTS_CLEAN OBJECT_DIFF_STATE_HOLE OBJECT_DIFF_STATE_UPDATED
    split_ifs <;> omega
  · intro h
    induction pairs generalizing old with
    | nil => exact h
    | cons pc rest ih =>
        exact ih (updateDiffState pc.1 pc.2 old) (updateDiffState_ne_none _ _ _ h)

/-- Witness for C3 at a concrete input: `prev = Exists`, `cur =
Nonexistent`, accumulated cell `Updated`, followed by two further steps. -/
theorem fast_diff_classification_rule_witness :
    updateDiffState 1 0 1 = updateDiffStateSpec 1 0 1 ∧
    ((1 : Nat) ≠ OBJECT_DIFF_STATE_NONE ∧
      overlapWalk [(1, 0), (0, 3)] 1 ≠ OBJECT_DIFF_STATE_NONE) :=
  ⟨(fast_diff_classification_rule 1 0 1 [(1, 0), (0, 3)]).1,
   by decide,
   (fast_diff_classification_rule 1 0 1 [(1, 0), (0, 3)]).2 (by decide)⟩

/-! ### Claim C5: entry checks -/
/-- Claim C5: before any work is submitted, `execute` returns `-ENOENT`
when the named from-snapshot did not resolve (`CEPH_NOSNAP`), returns 0
without invoking the callback when the two snapshot ids are equal, and
returns `-EINVAL` when `from ≥ end` strictly; in each case no record is
delivered. -/
theorem execute_entry_checks (fromSnapId endSnapId : Nat) (rest : Int × List Diff) :
    (fromSnapId = CEPH_NOSNAP →
      executeModel fromSnapId endSnapId rest = (-ENOENT, [])) ∧
    (fromSnapId ≠ CEPH_NOSNAP → fromSnapId = endSnapId →
      executeModel fromSnapId endSnapId rest = (0, [])) ∧
    (fromSnapId ≠ CEPH_NOSNAP → fromSnapId ≠ endSnapId → fromSnapId ≥ endSnapId →
      executeModel fromSnapId endSnapId rest = (-EINVAL, [])) := by
  refine ⟨fun h1 => ?_, fun h1 h2 => ?_, fun h1 h2 h3 => ?_⟩
  · simp [executeModel, executeEntryCheck, h1]
  · subst h2
    simp [executeModel, executeEntryCheck, h1]
  · simp [executeModel, executeEntryCheck, h1, h2, h3]

/-- Witness for C5 at concrete snapshot ids. -/
theorem execute_entry_checks_witness :
    (CEPH_NOSNAP = CEPH_NOSNAP ∧
      executeModel CEPH_NOSNAP 7 (5, []) = (-ENOENT, [])) ∧
    ((4 : Nat) ≠ CEPH_NOSNAP ∧ (4 : Nat) = 4 ∧
      executeModel 4 4 (5, []) = (0, [])) ∧
    ((9 : Nat) ≠ CEPH_NOSNAP ∧ (9 : Nat) ≠ 4 ∧ (9 : Nat) ≥ 4 ∧
      executeModel 9 4 (5, []) = (-EINVAL, [])) :=
  ⟨⟨rfl, (execute_entry_checks CEPH_NOSNAP 7 (5, [])).1 rfl⟩,
   ⟨by decide, rfl,
    (execute_entry_checks 4 4 (5, [])).2.1 (by decide) rfl⟩,
   ⟨by decide, by decide, by decide,
    (execute_entry_checks 9 4 (5, [])).2.2 (by decide) (by decide) (by decide)⟩⟩

/-! ### Claim C10: the `simple_diff_cb` assertion versus the fast path -/
/-- Claim C10 is false of the code: when the parent diff runs the fast
path (whole-object diff from snapshot 0) and a parent object existed at
the first snapshot of the chain but is nonexistent at the end snapshot,
the chain walk classifies it `Hole`, the fast path then emits a record
whose `exists` argument is `false`, and that record reaches
`simple_diff_cb`, whose `assert(exists)` cannot hold.  Object maps
`[[OBJECT_EXISTS], [OBJECT_NONEXISTENT]]` evaluate the code at that
failing input. -/
theorem simple_diff_cb_assert_violated :
    diffObjectMapWalk true [[OBJECT_EXISTS], [OBJECT_NONEXISTENT]] =
      [OBJECT_DIFF_STATE_HOLE] ∧
    fastPathRecordEx (diffObjectMapWalk true [[OBJECT_EXISTS], [OBJECT_NONEXISTENT]]) 0 =
      some false ∧
    ¬ simpleDiffCbAssert false := by
  refine ⟨by decide, by decide, ?_⟩
  simp [simpleDiffCbAssert]

theorem extentDiffs_go (mOffset : Nat) (diff : IntervalList) (endExists : Bool) :
    ∀ (bes : List (Nat × Nat)) (acc : List Diff) (start : Nat),
      (bes.foldl
        (fun acc r =>
          (acc.1 ++ (intervalIntersect acc.2 r.2 diff).map
              (fun s => Diff.mk (mOffset + r.1 + (s.1 - acc.2)) s.2 endExists),
           acc.2 + r.2))
        (acc, start)).1 =
      acc ++ ((bufferExtentPositions start bes).map
        (fun t => (intervalIntersect t.1 t.2.2 diff).map
           (fun s => Diff.mk (mOffset + t.2.1 + (s.1 - t.1)) s.2 endExists))).flatten := by
  intro bes
  induction bes with
  | nil => intro acc start; simp [bufferExtentPositions]
  | cons r rest ih =>
      intro acc start
      simp only [List.foldl_cons, bufferExtentPositions, List.map_cons,
        List.flatten_cons, ih, List.append_assoc]

theorem extentDiffs_eq_spec (mOffset : Nat) (diff : IntervalList) (endExists : Bool)
    (q : ObjectExtent) :
    extentDiffs mOffset diff endExists q = extentDiffsSpec mOffset diff endExists q := by
  unfold extentDiffs extentDiffsSpec
  simpa using extentDiffs_go mOffset diff endExists q.bufferExtents [] q.offset

/-- Claim C6: the per-object slow-path diff computation emits no record
when the diff set is empty; with `whole_object` it emits exactly one
full-extent record per requested object extent with
`exists = end_exists`; otherwise it intersects the diff with each buffer
extent's object-local range and emits each sub-range translated to
`image_offset + buffer_offset + (sub_range_start - extent_start)` with
`exists = end_exists`. -/
theorem compute_diffs_matches_spec (wholeObject : Bool) (mOffset : Nat)
    (exts : List ObjectExtent) (diff : IntervalList) (endExists : Bool) :
    compute_diffs wholeObject mOffset exts diff endExists =
      compute_diffs_spec wholeObject mOffset exts diff endExists := by
  have hf : extentDiffs mOffset diff endExists = extentDiffsSpec mOffset diff endExists :=
    funext (extentDiffs_eq_spec mOffset diff endExists)
  unfold compute_diffs compute_diffs_spec
  rw [hf]

theorem mem_compute_parent_overlap (fromSnapId : Nat) (parentDiff : IntervalList)
    (mOffset : Nat) (exts : List ObjectExtent) (d : Diff)
    (h : fromSnapId = 0 ∧ ¬ parentDiff.isEmpty) :
    d ∈ compute_parent_overlap fromSnapId parentDiff mOffset exts ↔
      ∃ q ∈ exts, ∃ be ∈ q.bufferExtents,
        ∃ s ∈ intervalIntersect (mOffset + be.1) be.2 parentDiff,
          d = Diff.mk s.1 s.2 true := by
  unfold compute_parent_overlap
  rw [if_pos h]
  simp only [List.mem_flatten, List.mem_map]
  aesop

/-- Claim C7: an object-not-found completion records no error (the status
handed to `finish_op` is 0); when `from_snap_id = 0` and the
parent-overlap set is non-empty the emitted records are exactly the
intersections of each buffer extent's logical range with the
parent-overlap set, all carrying `exists = true`; when `from_snap_id ≠ 0`
or the parent-overlap set is empty, nothing is emitted. -/
theorem object_not_found_parent_overlap (r snapRet : Int) (wholeObject : Bool)
    (fromSnapId : Nat) (parentDiff : IntervalList) (mOffset : Nat)
    (exts : List ObjectExtent) (diff : IntervalList) (endExists : Bool)
    (hnf : (if r = 0 ∧ snapRet < 0 then snapRet else r) = -ENOENT) :
    (diffObjectFinish r snapRet wholeObject fromSnapId parentDiff mOffset exts
        diff endExists).1 = 0 ∧
    (diffObjectFinish r snapRet wholeObject fromSnapId parentDiff mOffset exts
        diff endExists).2 =
      compute_parent_overlap fromSnapId parentDiff mOffset exts ∧
    (¬ (fromSnapId = 0 ∧ ¬ parentDiff.isEmpty) →
      compute_parent_overlap fromSnapId parentDiff mOffset exts = []) ∧
    (∀ d, d ∈ compute_parent_overlap fromSnapId parentDiff mOffset exts → d.ex = true) ∧
    (fromSnapId = 0 → ¬ parentDiff.isEmpty →
      ∀ d, d ∈ compute_parent_overlap fromSnapId parentDiff mOffset exts ↔
        ∃ q ∈ exts, ∃ be ∈ q.bufferExtents,
          ∃ s ∈ intervalIntersect (mOffset + be.1) be.2 parentDiff,
            d = Diff.mk s.1 s.2 true) := by
  have hne : (-ENOENT : Int) ≠ 0 := by decide
  refine ⟨?_, ?_, ?_, ?_, ?_⟩
  · simp [diffObjectFinish, hnf, hne]
  · simp [diffObjectFinish, hnf, hne]
  · intro h
    unfold compute_parent_overlap
    rw [if_neg h]
  · intro d hd
    by_cases hc : fromSnapId = 0 ∧ ¬ parentDiff.isEmpty
    · obtain ⟨q, _, be, _, s, _, rfl⟩ :=
        (mem_compute_parent_overlap fromSnapId parentDiff mOffset exts d hc).1 hd
      rfl
    · unfold compute_parent_overlap at hd
      rw [if_neg hc] at hd
      cases hd
  · intro h0 hpe d
    exact mem_compute_parent_overlap fromSnapId parentDiff mOffset exts d ⟨h0, hpe⟩

/-- Witness for C7 at a concrete not-found completion: one extent, one
buffer extent, parent overlap `[100, 200)` over logical range `[0, 512)`. -/
theorem object_not_found_parent_overlap_witness :
    ((if (-ENOENT : Int) = 0 ∧ (0 : Int) < 0 then (0 : Int) else -ENOENT) = -ENOENT) ∧
    (diffObjectFinish (-ENOENT) 0 false 0 [(100, 100)] 0
        [ObjectExtent.mk 0 512 [(0, 512)]] [] true).1 = 0 ∧
    (diffObjectFinish (-ENOENT) 0 false 0 [(100, 100)] 0
        [ObjectExtent.mk 0 512 [(0, 512)]] [] true).2 =
      compute_parent_overlap 0 [(100, 100)] 0 [ObjectExtent.mk 0 512 [(0, 512)]] :=
  ⟨by decide,
   (object_not_found_parent_overlap (-ENOENT) 0 false 0 [(100, 100)] 0
      [ObjectExtent.mk 0 512 [(0, 512)]] [] true (by decide)).1,
   (object_not_found_parent_overlap (-ENOENT) 0 false 0 [(100, 100)] 0
      [ObjectExtent.mk 0 512 [(0, 512)]] [] true (by decide)).2.1⟩

/-! ### Helper lemmas for the ledger proofs -/
theorem flattenUpTo_succ (f : Nat → List Diff) (n : Nat) :
    flattenUpTo f (n + 1) = flattenUpTo f n ++ f n := by
  simp [flattenUpTo, List.range_succ]

theorem firstNeg_append_noNeg (a b : List Int) (h : noNeg a) :
    firstNeg (a ++ b) = firstNeg b := by
  induction a with
  | nil => rfl
  | cons x xs ih =>
      have hx : ¬ x < 0 := h x (List.mem_cons_self x xs)
      have hxs : noNeg xs := fun y hy => h y (List.mem_cons_of_mem x hy)
      simp [firstNeg, hx, ih hxs]

theorem firstNeg_append_neg (a b : List Int) (h : firstNeg a < 0) :
    firstNeg (a ++ b) = firstNeg a := by
  induction a with
  | nil => simp [firstNeg] at h
  | cons x xs ih =>
      by_cases hx : x < 0
      · simp [firstNeg, hx]
      · simp only [firstNeg, hx, if_false] at h
        simp [firstNeg, hx, ih h]

theorem firstNeg_eq_zero_of_noNeg (a : List Int) (h : noNeg a) : firstNeg a = 0 := by
  induction a with
  | nil => rfl
  | cons x xs ih =>
      have hx : ¬ x < 0 := h x (List.mem_cons_self x xs)
      have hxs : noNeg xs := fun y hy => h y (List.mem_cons_of_mem x hy)
      simp [firstNeg, hx, ih hxs]

theorem noNeg_of_firstNeg_eq_zero (a : List Int) (h : firstNeg a = 0) : noNeg a := by
  induction a with
  | nil => intro x hx; cases hx
  | cons x xs ih =>
      by_cases hx : x < 0
      · simp only [firstNeg, hx, if_true] at h
        omega
      · simp only [firstNeg, hx, if_false] at h
        intro y hy
        rcases List.mem_cons.1 hy with rfl | hy2
        · exact hx
        · exact ih h y hy2

theorem nondecr_append_left : ∀ a b : List Nat, nondecr (a ++ b) = true → nondecr a = true := by
  intro a
  induction a with
  | nil => intro b _; rfl
  | cons x a2 ih =>
      intro b h
      cases a2 with
      | nil => rfl
      | cons y t =>
          simp only [List.cons_append, nondecr, Bool.and_eq_true] at h ⊢
          exact ⟨h.1, ih b h.2⟩

theorem mem_mapInsert (k : Nat) (v : List Diff) :
    ∀ (m : List (Nat × List Diff)) p, p ∈ mapInsert k v m → p = (k, v) ∨ p ∈ m := by
  intro m
  induction m with
  | nil =>
      intro p hp
      simp [mapInsert] at hp
      exact Or.inl hp
  | cons q rest ih =>
      intro p hp
      unfold mapInsert at hp
      split_ifs at hp with h1 h2
      · rcases List.mem_cons.1 hp with rfl | hp2
        · exact Or.inl rfl
        · exact Or.inr hp2
      · rcases List.mem_cons.1 hp with rfl | hp2
        · exact Or.inl rfl
        · exact Or.inr (List.mem_cons_of_mem q hp2)
      · rcases List.mem_cons.1 hp with rfl | hp2
        · exact Or.inr (List.mem_cons_self _ _)
        · rcases ih p hp2 with h | h
          · exact Or.inl h
          · exact Or.inr (List.mem_cons_of_mem q h)

theorem mapInsert_sorted (k : Nat) (v : List Diff) :
    ∀ m : List (Nat × List Diff), KeysSorted m → KeysSorted (mapInsert k v m) := by
  intro m
  induction m with
  | nil =>
      intro _
      refine ⟨?_, trivial⟩
      intro p hp
      cases hp
  | cons q rest ih =>
      intro hs
      obtain ⟨hlb, hrest⟩ := hs
      unfold mapInsert
      split_ifs with h1 h2
      · refine ⟨?_, hlb, hrest⟩
        intro p hp
        rcases List.mem_cons.1 hp with rfl | hp2
        · exact h1
        · exact lt_trans h1 (hlb p hp2)
      · subst h2
        exact ⟨hlb, hrest⟩
      · have hk : q.1 < k := by omega
        refine ⟨?_, ih hrest⟩
        intro p hp
        rcases mem_mapInsert k v rest p hp with rfl | hp2
        · exact hk
        · exact hlb p hp2

theorem keysSorted_suffix : ∀ pre m : List (Nat × List Diff),
    KeysSorted (pre ++ m) → KeysSorted m := by
  intro pre
  induction pre with
  | nil => intro m h; exact h
  | cons q rest ih => intro m h; exact ih m h.2

theorem mapFind_eq_none (k : Nat) :
    ∀ m : List (Nat × List Diff), (∀ p, p ∈ m → p.1 ≠ k) → mapFind k m = none := by
  intro m
  induction m with
  | nil => intro _; rfl
  | cons q rest ih =>
      intro h
      unfold mapFind
      rw [if_neg (h q (List.mem_cons_self q rest))]
      exact ih (fun p hp => h p (List.mem_cons_of_mem q hp))

theorem deliverList_spec (cb : Diff → Int) :
    ∀ (ds del : List Diff) (e : Option Int), deliverList cb ds = (del, e) →
      (e = none → del = ds ∧ noNeg (del.map cb)) ∧
      (∀ r, e = some r → r < 0 ∧ (∃ c, del ++ c = ds) ∧ firstNeg (del.map cb) = r) := by
  intro ds
  induction ds with
  | nil =>
      intro del e heq
      simp only [deliverList] at heq
      injection heq with h1 h2
      subst h1
      subst h2
      constructor
      · intro _
        exact ⟨rfl, fun x hx => by cases hx⟩
      · intro r hr
        cases hr
  | cons d ds2 ih =>
      intro del e heq
      simp only [deliverList] at heq
      by_cases hd : cb d < 0
      · rw [if_pos hd] at heq
        injection heq with h1 h2
        subst h1
        subst h2
        constructor
        · intro hcon
          cases hcon
        · intro r hr
          injection hr with hr2
          subst hr2
          exact ⟨hd, ⟨ds2, rfl⟩, by simp [firstNeg, hd]⟩
      · rw [if_neg hd] at heq
        rcases hres : deliverList cb ds2 with ⟨del2, e2⟩
        rw [hres] at heq
        injection heq with h1 h2
        subst h1
        subst h2
        obtain ⟨hnone, hsome⟩ := ih del2 e2 hres
        constructor
        · intro he
          obtain ⟨hda, hdb⟩ := hnone he
          subst hda
          refine ⟨rfl, ?_⟩
          intro x hx
          rcases List.mem_cons.1 hx with rfl | hx2
          · exact hd
          · exact hdb x hx2
        · intro r hr
          obtain ⟨hr1, ⟨c, hc⟩, hr3⟩ := hsome r hr
          refine ⟨hr1, ⟨c, by simp [hc]⟩, ?_⟩
          simp [firstNeg, hd, hr3]

theorem drainGo_nil (cb : Diff → Int) (w : Nat) : drainGo cb [] w = ([], w, [], none) := rfl

theorem drainGo_cons_miss (cb : Diff → Int) (k : Nat) (ds : List Diff)
    (rest : List (Nat × List Diff)) (w : Nat) (hk : k ≠ w) :
    drainGo cb ((k, ds) :: rest) w = ((k, ds) :: rest, w, [], none) := by
  simp [drainGo, hk]

theorem drainGo_cons_hit_err (cb : Diff → Int) (k : Nat) (ds del0 : List Diff)
    (rest : List (Nat × List Diff)) (r0 : Int)
    (hdel : deliverList cb ds = (del0, some r0)) :
    drainGo cb ((k, ds) :: rest) k = (rest, k, del0, some r0) := by
  simp [drainGo, hdel]

theorem drainGo_cons_hit_ok (cb : Diff → Int) (k : Nat) (ds del0 : List Diff)
    (rest m3 : List (Nat × List Diff)) (w3 : Nat) (del3 : List Diff) (e3 : Option Int)
    (hdel : deliverList cb ds = (del0, none))
    (hrec : drainGo cb rest (k + 1) = (m3, w3, del3, e3)) :
    drainGo cb ((k, ds) :: rest) k = (m3, w3, del0 ++ del3, e3) := by
  simp [drainGo, hdel, hrec]

/-- Full characterization of one `invoke_callback` drain loop over a
well-formed buffer: the waiting counter only advances, the remaining
buffer is a suffix whose keys are all at or above the new counter, every
number passed over was a buffered entry, and the delivered records are
exactly the request lists `waiting, waiting+1, …` concatenated in
request-number order — the whole lists up to the new counter on success,
or those plus part of the failing request's list when the callback
reports an error (in which case the counter does not advance past the
failing request). -/
theorem drainGo_spec (f : Nat → List Diff) (cb : Diff → Int) :
    ∀ (m : List (Nat × List Diff)) (w : Nat) (m2 : List (Nat × List Diff))
      (w2 : Nat) (del : List Diff) (e : Option Int),
      drainGo cb m w = (m2, w2, del, e) →
      KeysSorted m → (∀ p, p ∈ m → w ≤ p.1 ∧ p.2 = f p.1) →
      w ≤ w2 ∧
      (∃ pre, pre ++ m2 = m) ∧
      (∀ p, p ∈ m2 → w2 ≤ p.1) ∧
      (∀ j, w ≤ j → j < w2 → (j, f j) ∈ m) ∧
      (e = none →
        flattenUpTo f w ++ del = flattenUpTo f w2 ∧
        (∀ p, p ∈ m2 → p.1 ≠ w2) ∧
        noNeg (del.map cb)) ∧
      (∀ r, e = some r →
        r < 0 ∧
        (∃ a c, flattenUpTo f w ++ del = flattenUpTo f w2 ++ a ∧ a ++ c = f w2) ∧
        firstNeg (del.map cb) = r) := by
  intro m
  induction m with
  | nil =>
      intro w m2 w2 del e heq _ _
      rw [drainGo_nil] at heq
      injection heq with h1 h2
      injection h2 with h2 h3
      injection h3 with h3 h4
      subst h1; subst h2; subst h3; subst h4
      refine ⟨le_refl w, ⟨[], rfl⟩, ?_, ?_, ?_, ?_⟩
      · intro p hp; cases hp
      · intro j h1 h2; omega
      · intro _
        refine ⟨by simp, ?_, ?_⟩
        · intro p hp; cases hp
        · intro x hx; cases hx
      · intro r hr; cases hr
  | cons q rest ih =>
      obtain ⟨k, ds⟩ := q
      intro w m2 w2 del e heq hs hp
      have hkw : w ≤ k := (hp (k, ds) (List.mem_cons_self _ _)).1
      have hkv : ds = f k := (hp (k, ds) (List.mem_cons_self _ _)).2
      by_cases hk : k = w
      · subst hk
        rcases hdel : deliverList cb ds with ⟨del0, e0⟩
        obtain ⟨hdnone, hdsome⟩ := deliverList_spec cb ds del0 e0 hdel
        cases e0 with
        | some r0 =>
            rw [drainGo_cons_hit_err cb k ds del0 rest r0 hdel] at heq
            injection heq with h1 h2
            injection h2 with h2 h3
            injection h3 with h3 h4
            subst h1; subst h2; subst h3; subst h4
            obtain ⟨hr0, ⟨c, hc⟩, hfn⟩ := hdsome r0 rfl
            refine ⟨le_refl k, ⟨[(k, ds)], rfl⟩, ?_, ?_, ?_, ?_⟩
            · intro p hpm
              exact le_of_lt (hs.1 p hpm)
            · intro j h1 h2; omega
            · intro hcon; cases hcon
            · intro r hr
              injection hr with hr2
              subst hr2
              exact ⟨hr0, ⟨del0, c, rfl, hkv ▸ hc⟩, hfn⟩
        | none =>
            rcases hrec : drainGo cb rest (k + 1) with ⟨m3, w3, del3, e3⟩
            rw [drainGo_cons_hit_ok cb k ds del0 rest m3 w3 del3 e3 hdel hrec] at heq
            injection heq with h1 h2
            injection h2 with h2 h3
            injection h3 with h3 h4
            subst h1; subst h2; subst h3; subst h4
            obtain ⟨hda, hdb⟩ := hdnone rfl
            have hprest : ∀ p, p ∈ rest → k + 1 ≤ p.1 ∧ p.2 = f p.1 := by
              intro p hpm
              exact ⟨hs.1 p hpm, (hp p (List.mem_cons_of_mem _ hpm)).2⟩
            obtain ⟨ih1, ⟨pre, hpre⟩, ih3, ih4, ih5, ih6⟩ :=
              ih (k + 1) m3 w3 del3 e3 hrec hs.2 hprest
            have hdel0 : del0 = f k := by rw [hda, hkv]
            have hflat : flattenUpTo f k ++ del0 = flattenUpTo f (k + 1) := by
              rw [hdel0, flattenUpTo_succ]
            refine ⟨by omega, ⟨(k, ds) :: pre, by simp [hpre]⟩, ih3, ?_, ?_, ?_⟩
            · intro j h1 h2
              by_cases hj : j = k
              · subst hj
                rw [hkv]
                exact List.mem_cons_self _ _
              · have hj2 : k + 1 ≤ j := by omega
                exact List.mem_cons_of_mem _ (ih4 j hj2 h2)
            · intro he
              obtain ⟨iha, ihb, ihc⟩ := ih5 he
              refine ⟨?_, ihb, ?_⟩
              · rw [← List.append_assoc, hflat, iha]
              · intro x hx
                rw [List.map_append] at hx
                rcases List.mem_append.1 hx with hx1 | hx2
                · exact hdb x hx1
                · exact ihc x hx2
            · intro r hr
              obtain ⟨ihr1, ⟨a, c, ihr2, ihr3⟩, ihr4⟩ := ih6 r hr
              refine ⟨ihr1, ⟨a, c, ?_, ihr3⟩, ?_⟩
              · rw [← List.append_assoc, hflat, ihr2]
              · rw [List.map_append, firstNeg_append_noNeg _ _ hdb, ihr4]
      · rw [drainGo_cons_miss cb k ds rest w hk] at heq
        injection heq with h1 h2
        injection h2 with h2 h3
        injection h3 with h3 h4
        subst h1; subst h2; subst h3; subst h4
        refine ⟨le_refl w, ⟨[], rfl⟩, ?_, ?_, ?_, ?_⟩
        · intro p hpm
          exact (hp p hpm).1
        · intro j h1 h2; omega
        · intro _
          refine ⟨by simp, ?_, ?_⟩
          · intro p hpm
            rcases List.mem_cons.1 hpm with rfl | hp2
            · exact hk
            · have := hs.1 p hp2
              omega
          · intro x hx; cases hx
        · intro r hr; cases hr

theorem invokeCallback_neg (cb : Diff → Int) (s : DC) (h : s.returnValue < 0) :
    invokeCallback cb s = (s.returnValue, s) := by
  simp [invokeCallback, h]

theorem invokeCallback_pos_ok (cb : Diff → Int) (s : DC) (m2 : List (Nat × List Diff))
    (w2 : Nat) (del : List Diff) (h : ¬ s.returnValue < 0)
    (hdg : drainGo cb s.requestDiffs s.waitingRequest = (m2, w2, del, none)) :
    invokeCallback cb s =
      (0, { s with requestDiffs := m2, waitingRequest := w2,
                   delivered := s.delivered ++ del }) := by
  simp [invokeCallback, h, hdg]

theorem invokeCallback_pos_err (cb : Diff → Int) (s : DC) (m2 : List (Nat × List Diff))
    (w2 : Nat) (del : List Diff) (r : Int) (h : ¬ s.returnValue < 0)
    (hdg : drainGo cb s.requestDiffs s.waitingRequest = (m2, w2, del, some r)) :
    invokeCallback cb s =
      (r, { s with requestDiffs := m2, waitingRequest := w2, returnValue := r,
                   delivered := s.delivered ++ del }) := by
  simp [invokeCallback, h, hdg]

/-- Every event preserves the ledger invariant. -/
theorem inv_step (cfg : Cfg) (s : DC) (e : Ev) (hInv : LedgerInv cfg s)
    (hok : okEv cfg s e = true) : LedgerInv cfg (stepEv cfg s e) := by
  cases e with
  | start =>
      have hlt : s.pendingOps < cfg.limit := by simpa [okEv] using hok
      exact
        { rv_nonpos := hInv.rv_nonpos
          waiting_le := le_trans hInv.waiting_le (Nat.le_succ _)
          pending_le := hlt
          sorted := hInv.sorted
          entries := fun p hp =>
            ⟨(hInv.entries p hp).1, lt_trans (hInv.entries p hp).2.1 (Nat.lt_succ_self _),
             (hInv.entries p hp).2.2.1, (hInv.entries p hp).2.2.2⟩
          past_finished := hInv.past_finished
          delivered_eq := hInv.delivered_eq
          delivered_lower := hInv.delivered_lower
          delivered_upper := hInv.delivered_upper }
  | finish k =>
      have hok2 : k < s.nextRequest ∧ ¬ k ∈ s.finished := by simpa [okEv] using hok
      have hwk : s.waitingRequest ≤ k := by
        by_contra hcon
        exact hok2.2 (hInv.past_finished k (by omega))
      refine
        { rv_nonpos := ?_
          waiting_le := hInv.waiting_le
          pending_le := le_trans (Nat.sub_le _ _) hInv.pending_le
          sorted := mapInsert_sorted k (cfg.reqDiffs k) _ hInv.sorted
          entries := ?_
          past_finished := fun j hj => List.mem_cons_of_mem _ (hInv.past_finished j hj)
          delivered_eq := ?_
          delivered_lower := hInv.delivered_lower
          delivered_upper := hInv.delivered_upper }
      · show (if s.returnValue = 0 ∧ cfg.reqStatus k < 0 then cfg.reqStatus k
              else s.returnValue) ≤ 0
        split_ifs with hc
        · exact le_of_lt hc.2
        · exact hInv.rv_nonpos
      · intro p hp
        rcases mem_mapInsert k (cfg.reqDiffs k) s.requestDiffs p hp with rfl | hmem
        · exact ⟨hwk, hok2.1, rfl, List.mem_cons_self _ _⟩
        · exact ⟨(hInv.entries p hmem).1, (hInv.entries p hmem).2.1,
            (hInv.entries p hmem).2.2.1,
            List.mem_cons_of_mem _ (hInv.entries p hmem).2.2.2⟩
      · show (if s.returnValue = 0 ∧ cfg.reqStatus k < 0 then cfg.reqStatus k
              else s.returnValue) = 0 → _
        intro h0
        split_ifs at h0 with hc
        · omega
        · exact hInv.delivered_eq h0
  | drain =>
      by_cases hneg : s.returnValue < 0
      · have hstep : stepEv cfg s Ev.drain = s := by
          simp [stepEv, invokeCallback_neg cfg.cb s hneg]
        rw [hstep]
        exact hInv
      · have hz : s.returnValue = 0 := by
          have := hInv.rv_nonpos
          omega
        rcases hdg : drainGo cfg.cb s.requestDiffs s.waitingRequest with ⟨m2, w2, del, e⟩
        obtain ⟨hw, ⟨pre, hpre⟩, hkeys, hpassed, hnone, hsome⟩ :=
          drainGo_spec cfg.reqDiffs cfg.cb s.requestDiffs s.waitingRequest m2 w2 del e
            hdg hInv.sorted
            (fun p hp => ⟨(hInv.entries p hp).1, (hInv.entries p hp).2.2.1⟩)
        have hdel_eq : s.delivered = flattenUpTo cfg.reqDiffs s.waitingRequest :=
          hInv.delivered_eq hz
        have hw2n : w2 ≤ s.nextRequest := by
          by_cases hww : w2 = s.waitingRequest
          · rw [hww]; exact hInv.waiting_le
          · have hlt : s.waitingRequest < w2 := by omega
            have hmem : (w2 - 1, cfg.reqDiffs (w2 - 1)) ∈ s.requestDiffs :=
              hpassed (w2 - 1) (by omega) (by omega)
            have := (hInv.entries _ hmem).2.1
            omega
        have hsorted2 : KeysSorted m2 := keysSorted_suffix pre m2 (hpre ▸ hInv.sorted)
        have hmem2 : ∀ p, p ∈ m2 → p ∈ s.requestDiffs := by
          intro p hp
          rw [← hpre]
          exact List.mem_append_right pre hp
        have hpast2 : ∀ j, j < w2 → j ∈ s.finished := by
          intro j hj
          by_cases hjw : j < s.waitingRequest
          · exact hInv.past_finished j hjw
          · exact (hInv.entries _ (hpassed j (by omega) hj)).2.2.2
        cases e with
        | none =>
            obtain ⟨hflat, hgap, hnn⟩ := hnone rfl
            have hstep : stepEv cfg s Ev.drain =
                { s with requestDiffs := m2, waitingRequest := w2,
                         delivered := s.delivered ++ del } := by
              simp [stepEv, invokeCallback_pos_ok cfg.cb s m2 w2 del hneg hdg]
            rw [hstep]
            refine
              { rv_nonpos := hInv.rv_nonpos
                waiting_le := hw2n
                pending_le := hInv.pending_le
                sorted := hsorted2
                entries := ?_
                past_finished := hpast2
                delivered_eq := ?_
                delivered_lower := ?_
                delivered_upper := ?_ }
            · intro p hp
              exact ⟨hkeys p hp, (hInv.entries p (hmem2 p hp)).2.1,
                (hInv.entries p (hmem2 p hp)).2.2.1, (hInv.entries p (hmem2 p hp)).2.2.2⟩
            · intro _
              show s.delivered ++ del = _
              rw [hdel_eq, hflat]
            · refine ⟨[], ?_⟩
              show flattenUpTo cfg.reqDiffs w2 ++ [] = s.delivered ++ del
              rw [List.append_nil, hdel_eq, hflat]
            · refine ⟨cfg.reqDiffs w2, ?_⟩
              show (s.delivered ++ del) ++ cfg.reqDiffs w2 = _
              rw [hdel_eq, hflat, ← flattenUpTo_succ]
        | some r =>
            obtain ⟨hr, ⟨a, c, hflat2, hac⟩, hfn⟩ := hsome r rfl
            have hstep : stepEv cfg s Ev.drain =
                { s with requestDiffs := m2, waitingRequest := w2, returnValue := r,
                         delivered := s.delivered ++ del } := by
              simp [stepEv, invokeCallback_pos_err cfg.cb s m2 w2 del r hneg hdg]
            rw [hstep]
            refine
              { rv_nonpos := le_of_lt hr
                waiting_le := hw2n
                pending_le := hInv.pending_le
                sorted := hsorted2
                entries := ?_
                past_finished := hpast2
                delivered_eq := ?_
                delivered_lower := ?_
                delivered_upper := ?_ }
            · intro p hp
              exact ⟨hkeys p hp, (hInv.entries p (hmem2 p hp)).2.1,
                (hInv.entries p (hmem2 p hp)).2.2.1, (hInv.entries p (hmem2 p hp)).2.2.2⟩
            · intro h0
              have hr0 : r = 0 := h0
              omega
            · refine ⟨a, ?_⟩
              show flattenUpTo cfg.reqDiffs w2 ++ a = s.delivered ++ del
              rw [hdel_eq, ← hflat2]
            · refine ⟨c, ?_⟩
              show (s.delivered ++ del) ++ c = _
              rw [hdel_eq, hflat2, List.append_assoc, hac, ← flattenUpTo_succ]

/-- The freshly constructed ledger satisfies the invariant. -/
theorem inv_init (cfg : Cfg) : LedgerInv cfg initDC :=
  { rv_nonpos := le_refl 0
    waiting_le := le_refl 0
    pending_le := Nat.zero_le _
    sorted := trivial
    entries := fun p hp => absurd hp (List.not_mem_nil p)
    past_finished := fun j hj => absurd hj (Nat.not_lt_zero j)
    delivered_eq := fun _ => rfl
    delivered_lower := ⟨[], rfl⟩
    delivered_upper := ⟨flattenUpTo cfg.reqDiffs 1, rfl⟩ }

/-- The ledger invariant holds in every reachable state of a valid run. -/
theorem inv_run (cfg : Cfg) :
    ∀ (t : List Ev) (s : DC), LedgerInv cfg s → validB cfg s t = true →
      LedgerInv cfg (runEvents cfg s t) := by
  intro t
  induction t with
  | nil => intro s h _; exact h
  | cons e t2 ih =>
      intro s h hv
      rw [validB, Bool.and_eq_true] at hv
      exact ih (stepEv cfg s e) (inv_step cfg s e h hv.1) hv.2

theorem runEvents_append (cfg : Cfg) :
    ∀ (t1 t2 : List Ev) (s : DC),
      runEvents cfg s (t1 ++ t2) = runEvents cfg (runEvents cfg s t1) t2 := by
  intro t1
  induction t1 with
  | nil => intro t2 s; rfl
  | cons e t ih => intro t2 s; exact ih t2 (stepEv cfg s e)

theorem validB_append (cfg : Cfg) :
    ∀ (t1 t2 : List Ev) (s : DC),
      validB cfg s (t1 ++ t2) =
        (validB cfg s t1 && validB cfg (runEvents cfg s t1) t2) := by
  intro t1
  induction t1 with
  | nil => intro t2 s; simp [validB, runEvents]
  | cons e t ih =>
      intro t2 s
      simp only [List.cons_append, validB, runEvents, List.append_eq, ih, Bool.and_assoc]

theorem obsRun_append (cfg : Cfg) :
    ∀ (t1 t2 : List Ev) (s : DC),
      obsRun cfg s (t1 ++ t2) = obsRun cfg s t1 ++ obsRun cfg (runEvents cfg s t1) t2 := by
  intro t1
  induction t1 with
  | nil => intro t2 s; rfl
  | cons e t ih =>
      intro t2 s
      simp only [List.cons_append, obsRun, runEvents, List.append_eq, ih, List.append_assoc]

/-- A step never clears a recorded sticky error. -/
theorem rv_stepEv_neg (cfg : Cfg) (s : DC) (e : Ev) (h : s.returnValue < 0) :
    (stepEv cfg s e).returnValue = s.returnValue := by
  cases e with
  | start => rfl
  | finish k =>
      show (if s.returnValue = 0 ∧ cfg.reqStatus k < 0 then cfg.reqStatus k
            else s.returnValue) = s.returnValue
      rw [if_neg]
      intro hc
      omega
  | drain =>
      have hstep : stepEv cfg s Ev.drain = s := by
        simp [stepEv, invokeCallback_neg cfg.cb s h]
      rw [hstep]

/-- A run never clears a recorded sticky error. -/
theorem rv_run_neg (cfg : Cfg) :
    ∀ (t : List Ev) (s : DC), s.returnValue < 0 →
      (runEvents cfg s t).returnValue = s.returnValue := by
  intro t
  induction t with
  | nil => intro s _; rfl
  | cons e t2 ih =>
      intro s h
      rw [runEvents, ih (stepEv cfg s e) (by rw [rv_stepEv_neg cfg s e h]; exact h),
        rv_stepEv_neg cfg s e h]

/-- One step's new sticky error in terms of the observed statuses. -/
theorem rv_stepEv (cfg : Cfg) (s : DC) (e : Ev) (hInv : LedgerInv cfg s) :
    (stepEv cfg s e).returnValue =
      if s.returnValue < 0 then s.returnValue else firstNeg (obsEv cfg s e) := by
  by_cases hneg : s.returnValue < 0
  · rw [if_pos hneg, rv_stepEv_neg cfg s e hneg]
  · have hz : s.returnValue = 0 := by
      have := hInv.rv_nonpos
      omega
    rw [if_neg hneg]
    cases e with
    | start =>
        show s.returnValue = firstNeg []
        rw [hz]
        rfl
    | finish k =>
        show (if s.returnValue = 0 ∧ cfg.reqStatus k < 0 then cfg.reqStatus k
              else s.returnValue) = firstNeg [cfg.reqStatus k]
        by_cases hc : cfg.reqStatus k < 0
        · rw [if_pos ⟨hz, hc⟩]
          simp [firstNeg, hc]
        · rw [if_neg (fun hcc => hc hcc.2)]
          simp [firstNeg, hc, hz]
    | drain =>
        rcases hdg : drainGo cfg.cb s.requestDiffs s.waitingRequest with ⟨m2, w2, del, e0⟩
        obtain ⟨_, _, _, _, hnone, hsome⟩ :=
          drainGo_spec cfg.reqDiffs cfg.cb s.requestDiffs s.waitingRequest m2 w2 del e0
            hdg hInv.sorted
            (fun p hp => ⟨(hInv.entries p hp).1, (hInv.entries p hp).2.2.1⟩)
        have hobs : obsEv cfg s Ev.drain = del.map cfg.cb := by
          simp [obsEv, hneg, hdg]
        rw [hobs]
        cases e0 with
        | none =>
            have hstep : stepEv cfg s Ev.drain =
                { s with requestDiffs := m2, waitingRequest := w2,
                         delivered := s.delivered ++ del } := by
              simp [stepEv, invokeCallback_pos_ok cfg.cb s m2 w2 del hneg hdg]
            rw [hstep]
            show s.returnValue = _
            rw [hz, firstNeg_eq_zero_of_noNeg _ (hnone rfl).2.2]
        | some r =>
            have hstep : stepEv cfg s Ev.drain =
                { s with requestDiffs := m2, waitingRequest := w2, returnValue := r,
                         delivered := s.delivered ++ del } := by
              simp [stepEv, invokeCallback_pos_err cfg.cb s m2 w2 del r hneg hdg]
            rw [hstep]
            show r = _
            rw [(hsome r rfl).2.2]

/-- The sticky error of a run is the first negative observed status. -/
theorem rv_run (cfg : Cfg) :
    ∀ (t : List Ev) (s : DC), LedgerInv cfg s → validB cfg s t = true →
      (runEvents cfg s t).returnValue =
        if s.returnValue < 0 then s.returnValue else firstNeg (obsRun cfg s t) := by
  intro t
  induction t with
  | nil =>
      intro s hInv _
      by_cases hneg : s.returnValue < 0
      · rw [if_pos hneg]; rfl
      · rw [if_neg hneg]
        show s.returnValue = firstNeg []
        have := hInv.rv_nonpos
        have hz : s.returnValue = 0 := by omega
        rw [hz]; rfl
  | cons e t2 ih =>
      intro s hInv hv
      rw [validB, Bool.and_eq_true] at hv
      have hInv2 := inv_step cfg s e hInv hv.1
      have hih := ih (stepEv cfg s e) hInv2 hv.2
      by_cases hneg : s.returnValue < 0
      · rw [if_pos hneg, runEvents, rv_run_neg cfg t2 _
          (by rw [rv_stepEv_neg cfg s e hneg]; exact hneg), rv_stepEv_neg cfg s e hneg]
      · rw [if_neg hneg]
        have hstep_rv : (stepEv cfg s e).returnValue = firstNeg (obsEv cfg s e) := by
          rw [rv_stepEv cfg s e hInv, if_neg hneg]
        show (runEvents cfg (stepEv cfg s e) t2).returnValue =
          firstNeg (obsEv cfg s e ++ obsRun cfg (stepEv cfg s e) t2)
        by_cases hneg2 : (stepEv cfg s e).returnValue < 0
        · rw [rv_run_neg cfg t2 _ hneg2, hstep_rv,
            firstNeg_append_neg _ _ (hstep_rv ▸ hneg2)]
        · have hz2 : firstNeg (obsEv cfg s e) = 0 := by
            have := hInv2.rv_nonpos
            rw [hstep_rv] at hneg2 this
            omega
          rw [firstNeg_append_noNeg _ _ (noNeg_of_firstNeg_eq_zero _ hz2)]
          rw [hih, if_neg hneg2]

/-- The return value of `invoke_callback` equals the resulting sticky error
when an error results, and 0 otherwise. -/
theorem invokeCallback_fst (cb : Diff → Int) (s : DC) (h : s.returnValue ≤ 0) :
    (invokeCallback cb s).1 = ((invokeCallback cb s).2).returnValue := by
  by_cases hneg : s.returnValue < 0
  · rw [invokeCallback_neg cb s hneg]
  · have hz : s.returnValue = 0 := by omega
    rcases hdg : drainGo cb s.requestDiffs s.waitingRequest with ⟨m2, w2, del, e0⟩
    cases e0 with
    | none =>
        rw [invokeCallback_pos_ok cb s m2 w2 del hneg hdg]
        exact hz.symm
    | some r =>
        rw [invokeCallback_pos_err cb s m2 w2 del r hneg hdg]

/-! ### Claim C1: completion-order-independent, offset-ordered delivery -/
/-- Claim C1: on the slow path, for EVERY valid trace — hence for every
order in which the per-object queries complete — the records passed to
the user callback are exactly the per-request record lists concatenated
in request-number (submission) order up to the waiting counter (so the
delivered sequence depends only on the assigned request numbers, never on
completion order), and therefore, whenever the submission-ordered
concatenation is non-decreasing in offset, so is the delivered offset
sequence. -/
theorem slow_path_offsets_nondecreasing (cfg : Cfg) (t : List Ev)
    (hv : validB cfg initDC t = true)
    (hmono : nondecr ((flattenUpTo cfg.reqDiffs
        ((runEvents cfg initDC t).waitingRequest + 1)).map Diff.off) = true) :
    nondecr (((runEvents cfg initDC t).delivered).map Diff.off) = true ∧
    ((runEvents cfg initDC t).returnValue = 0 →
      (runEvents cfg initDC t).delivered =
        flattenUpTo cfg.reqDiffs (runEvents cfg initDC t).waitingRequest) := by
  have hInv := inv_run cfg t initDC (inv_init cfg) hv
  obtain ⟨c, hc⟩ := hInv.delivered_upper
  constructor
  · apply nondecr_append_left _ (c.map Diff.off)
    rw [← List.map_append, hc]
    exact hmono
  · exact hInv.delivered_eq

/-- Witness for C1: two requests submitted in offset order, completing
out of order (request 1 first), delivered in offset order. -/
theorem slow_path_offsets_nondecreasing_witness :
    (validB cfgW initDC
        [Ev.start, Ev.start, Ev.finish 1, Ev.drain, Ev.finish 0, Ev.drain] = true ∧
     nondecr ((flattenUpTo cfgW.reqDiffs
        ((runEvents cfgW initDC
          [Ev.start, Ev.start, Ev.finish 1, Ev.drain, Ev.finish 0, Ev.drain]).waitingRequest
            + 1)).map Diff.off) = true) ∧
    (nondecr (((runEvents cfgW initDC
        [Ev.start, Ev.start, Ev.finish 1, Ev.drain, Ev.finish 0, Ev.drain]).delivered).map
          Diff.off) = true ∧
     ((runEvents cfgW initDC
        [Ev.start, Ev.start, Ev.finish 1, Ev.drain, Ev.finish 0, Ev.drain]).returnValue = 0 →
      (runEvents cfgW initDC
        [Ev.start, Ev.start, Ev.finish 1, Ev.drain, Ev.finish 0, Ev.drain]).delivered =
        flattenUpTo cfgW.reqDiffs
          (runEvents cfgW initDC
            [Ev.start, Ev.start, Ev.finish 1, Ev.drain, Ev.finish 0, Ev.drain]).waitingRequest)) :=
  ⟨⟨by decide, by decide⟩,
   slow_path_offsets_nondecreasing cfgW
     [Ev.start, Ev.start, Ev.finish 1, Ev.drain, Ev.finish 0, Ev.drain]
     (by decide) (by decide)⟩

/-! ### Claim C2: the ticket-ledger invariant and the delivery cascade -/
/-- Claim C2: in every reachable state `waiting_request_number ≤
next_request_number`; while no error is set, the delivered records are
exactly the buffered results of requests `0, …, waiting-1`, each released
only when its number reached the waiting counter, which was then
incremented (the cascade); and after any drain that ends without error
the buffer holds no entry for the (new) waiting number — the cascade ran
until the first gap. -/
theorem ticket_ledger_invariant (cfg : Cfg) (t : List Ev)
    (hv : validB cfg initDC t = true) :
    (runEvents cfg initDC t).waitingRequest ≤ (runEvents cfg initDC t).nextRequest ∧
    ((runEvents cfg initDC t).returnValue = 0 →
      (runEvents cfg initDC t).delivered =
        flattenUpTo cfg.reqDiffs (runEvents cfg initDC t).waitingRequest) ∧
    ((stepEv cfg (runEvents cfg initDC t) Ev.drain).returnValue = 0 →
      mapFind (stepEv cfg (runEvents cfg initDC t) Ev.drain).waitingRequest
        (stepEv cfg (runEvents cfg initDC t) Ev.drain).requestDiffs = none) := by
  have hInv := inv_run cfg t initDC (inv_init cfg) hv
  refine ⟨hInv.waiting_le, hInv.delivered_eq, ?_⟩
  by_cases hneg : (runEvents cfg initDC t).returnValue < 0
  · have hstep : stepEv cfg (runEvents cfg initDC t) Ev.drain = runEvents cfg initDC t := by
      simp [stepEv, invokeCallback_neg cfg.cb _ hneg]
    rw [hstep]
    intro h0
    omega
  · rcases hdg : drainGo cfg.cb (runEvents cfg initDC t).requestDiffs
        (runEvents cfg initDC t).waitingRequest with ⟨m2, w2, del, e⟩
    obtain ⟨_, _, _, _, hnone, hsome⟩ :=
      drainGo_spec cfg.reqDiffs cfg.cb _ _ m2 w2 del e hdg hInv.sorted
        (fun p hp => ⟨(hInv.entries p hp).1, (hInv.entries p hp).2.2.1⟩)
    cases e with
    | some r =>
        have hstep : stepEv cfg (runEvents cfg initDC t) Ev.drain =
            { runEvents cfg initDC t with requestDiffs := m2, waitingRequest := w2,
                                             returnValue := r,
                                             delivered :=
                                               (runEvents cfg initDC t).delivered ++ del } := by
          simp [stepEv, invokeCallback_pos_err cfg.cb _ m2 w2 del r hneg hdg]
        rw [hstep]
        intro h0
        have hr0 : r = 0 := h0
        have := (hsome r rfl).1
        omega
    | none =>
        have hstep : stepEv cfg (runEvents cfg initDC t) Ev.drain =
            { runEvents cfg initDC t with requestDiffs := m2, waitingRequest := w2,
                                             delivered :=
                                               (runEvents cfg initDC t).delivered ++ del } := by
          simp [stepEv, invokeCallback_pos_ok cfg.cb _ m2 w2 del hneg hdg]
        rw [hstep]
        intro _
        exact mapFind_eq_none w2 m2 (hnone rfl).2.1

/-- Witness for C2: same out-of-order trace as C1's witness. -/
theorem ticket_ledger_invariant_witness :
    validB cfgW initDC [Ev.start, Ev.start, Ev.finish 1, Ev.drain, Ev.finish 0] = true ∧
    ((runEvents cfgW initDC
        [Ev.start, Ev.start, Ev.finish 1, Ev.drain, Ev.finish 0]).waitingRequest ≤
      (runEvents cfgW initDC
        [Ev.start, Ev.start, Ev.finish 1, Ev.drain, Ev.finish 0]).nextRequest ∧
     ((runEvents cfgW initDC
        [Ev.start, Ev.start, Ev.finish 1, Ev.drain, Ev.finish 0]).returnValue = 0 →
      (runEvents cfgW initDC
        [Ev.start, Ev.start, Ev.finish 1, Ev.drain, Ev.finish 0]).delivered =
        flattenUpTo cfgW.reqDiffs
          (runEvents cfgW initDC
            [Ev.start, Ev.start, Ev.finish 1, Ev.drain, Ev.finish 0]).waitingRequest) ∧
     ((stepEv cfgW (runEvents cfgW initDC
          [Ev.start, Ev.start, Ev.finish 1, Ev.drain, Ev.finish 0]) Ev.drain).returnValue = 0 →
      mapFind (stepEv cfgW (runEvents cfgW initDC
          [Ev.start, Ev.start, Ev.finish 1, Ev.drain, Ev.finish 0]) Ev.drain).waitingRequest
        (stepEv cfgW (runEvents cfgW initDC
          [Ev.start, Ev.start, Ev.finish 1, Ev.drain, Ev.finish 0]) Ev.drain).requestDiffs =
        none)) :=
  ⟨by decide,
   ticket_ledger_invariant cfgW [Ev.start, Ev.start, Ev.finish 1, Ev.drain, Ev.finish 0]
     (by decide)⟩

/-! ### Claim C4: the sticky error -/
/-- Claim C4: along any valid run the stored return value is exactly the
first negative status observed (from completions or from the user
callback); once negative it is never overwritten by any continuation of
the run; and the value `execute` ultimately returns — `wait_for_ret`
followed by a final `invoke_callback` — is that same first negative
status (or 0). -/
theorem sticky_error_first_negative (cfg : Cfg) (t1 t2 : List Ev)
    (hv : validB cfg initDC (t1 ++ t2) = true) :
    (runEvents cfg initDC (t1 ++ t2)).returnValue =
      firstNeg (obsRun cfg initDC (t1 ++ t2)) ∧
    ((runEvents cfg initDC t1).returnValue < 0 →
      (runEvents cfg initDC (t1 ++ t2)).returnValue =
        (runEvents cfg initDC t1).returnValue) ∧
    (invokeCallback cfg.cb (runEvents cfg initDC (t1 ++ t2))).1 =
      firstNeg (obsRun cfg initDC ((t1 ++ t2) ++ [Ev.drain])) := by
  have hInvFull := inv_run cfg (t1 ++ t2) initDC (inv_init cfg) hv
  have hzero : ¬ (initDC.returnValue < 0) := by decide
  refine ⟨?_, ?_, ?_⟩
  · have h := rv_run cfg (t1 ++ t2) initDC (inv_init cfg) hv
    rwa [if_neg hzero] at h
  · intro h
    rw [runEvents_append]
    exact rv_run_neg cfg t2 _ h
  · have hval3 : validB cfg initDC ((t1 ++ t2) ++ [Ev.drain]) = true := by
      rw [validB_append, hv]
      simp [validB, okEv]
    have h3 := rv_run cfg ((t1 ++ t2) ++ [Ev.drain]) initDC (inv_init cfg) hval3
    rw [if_neg hzero] at h3
    have hrun : runEvents cfg initDC ((t1 ++ t2) ++ [Ev.drain]) =
        stepEv cfg (runEvents cfg initDC (t1 ++ t2)) Ev.drain := by
      rw [runEvents_append]
      rfl
    rw [invokeCallback_fst cfg.cb (runEvents cfg initDC (t1 ++ t2)) hInvFull.rv_nonpos,
      ← h3, hrun]
    rfl

/-- Witness for C4: request 1 fails with -7 while request 0 is still in
flight; the error is recorded, survives the rest of the run, and is the
final return value. -/
theorem sticky_error_first_negative_witness :
    validB cfgE initDC
      ([Ev.start, Ev.start, Ev.finish 1] ++ [Ev.finish 0, Ev.drain]) = true ∧
    ((runEvents cfgE initDC
        ([Ev.start, Ev.start, Ev.finish 1] ++ [Ev.finish 0, Ev.drain])).returnValue =
      firstNeg (obsRun cfgE initDC
        ([Ev.start, Ev.start, Ev.finish 1] ++ [Ev.finish 0, Ev.drain])) ∧
     ((runEvents cfgE initDC [Ev.start, Ev.start, Ev.finish 1]).returnValue < 0 →
      (runEvents cfgE initDC
          ([Ev.start, Ev.start, Ev.finish 1] ++ [Ev.finish 0, Ev.drain])).returnValue =
        (runEvents cfgE initDC [Ev.start, Ev.start, Ev.finish 1]).returnValue) ∧
     (invokeCallback cfgE.cb (runEvents cfgE initDC
        ([Ev.start, Ev.start, Ev.finish 1] ++ [Ev.finish 0, Ev.drain]))).1 =
      firstNeg (obsRun cfgE initDC
        (([Ev.start, Ev.start, Ev.finish 1] ++ [Ev.finish 0, Ev.drain]) ++ [Ev.drain]))) :=
  ⟨by decide,
   sticky_error_first_negative cfgE [Ev.start, Ev.start, Ev.finish 1]
     [Ev.finish 0, Ev.drain] (by decide)⟩

/-! ### Claim C8: bounded concurrency -/
/-- Claim C8: a submission is admitted only while the in-flight count is
strictly below the configured limit; an admission increments the count
and advances the sequential request counter by one (the admitted request
receiving the pre-increment number); a completion decrements the count;
and consequently the in-flight count never exceeds the limit in any
reachable state of a run. -/
theorem concurrency_bound (cfg : Cfg) (t : List Ev)
    (hv : validB cfg initDC t = true) :
    (runEvents cfg initDC t).pendingOps ≤ cfg.limit ∧
    (okEv cfg (runEvents cfg initDC t) Ev.start = true ↔
      (runEvents cfg initDC t).pendingOps < cfg.limit) ∧
    (∀ s : DC, (startOp s).pendingOps = s.pendingOps + 1 ∧
      (startOp s).nextRequest = s.nextRequest + 1) ∧
    (∀ (s : DC) (k : Nat), (finishOp cfg k s).pendingOps = s.pendingOps - 1) := by
  refine ⟨(inv_run cfg t initDC (inv_init cfg) hv).pending_le, ?_,
    fun s => ⟨rfl, rfl⟩, fun s k => rfl⟩
  simp [okEv]

/-- Witness for C8 at a concrete saturated run: with limit 2, after two
admissions the window is full and a further `start` is not enabled. -/
theorem concurrency_bound_witness :
    validB cfgW initDC [Ev.start, Ev.start] = true ∧
    ((runEvents cfgW initDC [Ev.start, Ev.start]).pendingOps ≤ cfgW.limit ∧
     (okEv cfgW (runEvents cfgW initDC [Ev.start, Ev.start]) Ev.start = true ↔
       (runEvents cfgW initDC [Ev.start, Ev.start]).pendingOps < cfgW.limit) ∧
     (∀ s : DC, (startOp s).pendingOps = s.pendingOps + 1 ∧
       (startOp s).nextRequest = s.nextRequest + 1) ∧
     (∀ (s : DC) (k : Nat), (finishOp cfgW k s).pendingOps = s.pendingOps - 1)) :=
  ⟨by decide, concurrency_bound cfgW [Ev.start, Ev.start] (by decide)⟩

/-! ### Claim C9: no delivery after the first failure -/
/-- Claim C9: once the sticky error is negative, a drain returns it
immediately, leaving the ledger untouched — in particular the user
callback is not invoked and buffered results (even one already at the
waiting number) are not delivered; and when the user callback returns a
negative status partway through one request's record list, the drain
stops with exactly the records up to and including the failing one
delivered, the rest of that request's list discarded (its buffer entry
having been erased) and the waiting counter not advanced. -/
theorem error_stops_delivery (cfg : Cfg) (s : DC) (ds del : List Diff)
    (mrest : List (Nat × List Diff)) (r : Int) :
    (s.returnValue < 0 → invokeCallback cfg.cb s = (s.returnValue, s)) ∧
    (s.returnValue = 0 → s.requestDiffs = (s.waitingRequest, ds) :: mrest →
      deliverList cfg.cb ds = (del, some r) →
        invokeCallback cfg.cb s =
          (r, { s with requestDiffs := mrest, returnValue := r,
                       delivered := s.delivered ++ del }) ∧
        (∃ rest2, del ++ rest2 = ds) ∧
        ({ s with requestDiffs := mrest, returnValue := r,
                  delivered := s.delivered ++ del } : DC).waitingRequest =
          s.waitingRequest ∧
        r < 0) := by
  constructor
  · intro h
    exact invokeCallback_neg cfg.cb s h
  · intro hz hmap hdel
    have hneg : ¬ s.returnValue < 0 := by omega
    have hdg : drainGo cfg.cb s.requestDiffs s.waitingRequest =
        (mrest, s.waitingRequest, del, some r) := by
      rw [hmap]
      exact drainGo_cons_hit_err cfg.cb s.waitingRequest ds del mrest r hdel
    obtain ⟨_, hsome⟩ := deliverList_spec cfg.cb ds del (some r) hdel
    obtain ⟨hr, ⟨c, hc⟩, _⟩ := hsome r rfl
    refine ⟨?_, ⟨c, hc⟩, rfl, hr⟩
    rw [invokeCallback_pos_err cfg.cb s mrest s.waitingRequest del r hneg hdg]

/-- Witness for C9: the callback rejects the second of three records of
request 0; the third record is discarded and the counter stays at 0. -/
theorem error_stops_delivery_witness :
    (sW.returnValue = 0 ∧
     sW.requestDiffs =
       (sW.waitingRequest, [Diff.mk 1 1 true, Diff.mk 5 1 true, Diff.mk 9 1 true]) :: [] ∧
     deliverList cfgC.cb [Diff.mk 1 1 true, Diff.mk 5 1 true, Diff.mk 9 1 true] =
       ([Diff.mk 1 1 true, Diff.mk 5 1 true], some (-7))) ∧
    (invokeCallback cfgC.cb sW =
      (-7, { sW with requestDiffs := [], returnValue := -7,
                     delivered := sW.delivered ++ [Diff.mk 1 1 true, Diff.mk 5 1 true] }) ∧
     (∃ rest2, [Diff.mk 1 1 true, Diff.mk 5 1 true] ++ rest2 =
       [Diff.mk 1 1 true, Diff.mk 5 1 true, Diff.mk 9 1 true]) ∧
     ({ sW with requestDiffs := [], returnValue := -7,
                delivered := sW.delivered ++ [Diff.mk 1 1 true, Diff.mk 5 1 true] } :
        DC).waitingRequest = sW.waitingRequest ∧
     (-7 : Int) < 0) :=
  ⟨⟨by decide, by decide, by decide⟩,
   (error_stops_delivery cfgC sW [Diff.mk 1 1 true, Diff.mk 5 1 true, Diff.mk 9 1 true]
      [Diff.mk 1 1 true, Diff.mk 5 1 true] [] (-7)).2
     (by decide) (by decide) (by decide)⟩
